import Mathlib

/-!
Verification of the command-extraction engine of the AI-Wrapper repository
(`src/parser_engine.go`), as a shallow embedding in Lean.

Strings are modelled as `List Char`.  Go's `regexp` package (RE2) uses
leftmost-first (Perl-style preference) matching, and `.` does NOT match a
newline unless the `s` flag is set; character classes such as "[^`]" DO
match newlines.  The two regexes of `sanitizeCommand` are embedded as
specialized backtracking matchers that follow those semantics exactly.

Whitespace: Go's `strings.TrimSpace` trims Unicode whitespace; inputs here
are modelled over the ASCII whitespace set, which agrees with Go on all
ASCII text.
-/

namespace ParserEngine

/-- ASCII whitespace, as trimmed by Go's `strings.TrimSpace` on ASCII text. -/
def isSpace (c : Char) : Bool :=
  c = ' ' || c = '\t' || c = '\n' || c = '\r' || c = '\x0B' || c = '\x0C'

/-- Model of `strings.TrimSpace`: drop leading and trailing whitespace. -/
def trimChars (l : List Char) : List Char :=
  ((l.dropWhile isSpace).reverse.dropWhile isSpace).reverse

/-- Model of `strings.Split(s, "\n")`: split on each newline, keeping empty parts. -/
def splitLines : List Char → List (List Char)
  | [] => [[]]
  | c :: rest =>
    if c = '\n' then [] :: splitLines rest
    else
      match splitLines rest with
      | [] => [[c]]
      | l :: ls => (c :: l) :: ls

/-- Model of `getFirstNonEmptyLine` (parser_engine.go lines 228-237):
first line that is non-empty after trimming, or the empty string. -/
def getFirstNonEmptyLine (text : List Char) : List Char :=
  (((splitLines text).map trimChars).find? (fun l => !l.isEmpty)).getD []

/-- The fixed explanation-phrase list of `looksLikeExplanation`
(parser_engine.go lines 240-259); each Go pattern is `^` followed by a literal. -/
def explanationPhrases : List (List Char) :=
  ["para".toList, "usa".toList, "este".toList, "el comando".toList,
   "la respuesta".toList, "you can".toList, "this will".toList,
   "use".toList, "the command".toList]

/-- Model of `looksLikeExplanation`: the lower-cased line starts with one of
the fixed phrases. -/
def looksLikeExplanation (line : List Char) : Bool :=
  explanationPhrases.any (fun p => p.isPrefixOf (line.map Char.toLower))

/-- Model of `regexp.MustCompile("^\$|^\s*neri>|^\s*Emiliano>").ReplaceAllString(line, "")`
(parser_engine.go line 218).  The pattern is anchored at the start of the text,
so at most one replacement happens: a leading `$` (one character), or leading
whitespace followed by `neri>` or `Emiliano>`. -/
def stripPrompt (line : List Char) : List Char :=
  match line with
  | '$' :: rest => rest
  | _ =>
    if ("neri>".toList).isPrefixOf (line.dropWhile isSpace) then
      (line.dropWhile isSpace).drop 5
    else if ("Emiliano>".toList).isPrefixOf (line.dropWhile isSpace) then
      (line.dropWhile isSpace).drop 9
    else line

/-- The backtick character, U+0060. -/
def backtick : Char := Char.ofNat 96

/-- Model of the inline-code regex "`([^`]+)`" (parser_engine.go line 205):
leftmost match of a backtick, one or more non-backtick characters (newlines
included -- a character class matches them), and a closing backtick; returns
the capture group. -/
def findInline : List Char → Option (List Char)
  | [] => none
  | c :: rest =>
    if c = backtick then
      match rest.dropWhile (fun x => x ≠ backtick) with
      | [] => findInline rest
      | _ :: _ =>
        match rest.takeWhile (fun x => x ≠ backtick) with
        | [] => findInline rest
        | run => some run
    else findInline rest

/-- Closing part "\n?```" of the fenced-block regex: holds of a residual that
starts with three backticks, optionally preceded by one newline. -/
def fenceClose (r : List Char) : Bool :=
  ("```".toList).isPrefixOf r ||
    (match r with
     | '\n' :: rest => ("```".toList).isPrefixOf rest
     | _ => false)

/-- The lazy capture "(.*?)" of the fenced-block regex followed by "\n?```":
`.` does not match a newline, and laziness prefers the shortest capture, so
the capture extends character by character within the current line until the
closing fence is reachable. -/
def lazyCapture : List Char → Option (List Char)
  | [] => if fenceClose [] then some [] else none
  | c :: rest =>
    if fenceClose (c :: rest) then some []
    else if c = '\n' then none
    else (lazyCapture rest).map (c :: ·)

/-- The part "\n?(.*?)\n?```" of the fenced-block regex: the greedy "\n?"
prefers to consume a leading newline; the non-consuming alternative is kept
for fidelity to the regex even though it can never add a match. -/
def fenceTail (r : List Char) : Option (List Char) :=
  match r with
  | '\n' :: rest =>
    match lazyCapture rest with
    | some m => some m
    | none => lazyCapture ('\n' :: rest)
  | _ => lazyCapture r

/-- Optional language tag: one alternative of "(?:bash|sh|zsh|shell)?",
tried as a literal at the current position. -/
def tryTag (body : List Char) (t : List Char) : Option (List Char) :=
  if t.isPrefixOf body then fenceTail (body.drop t.length) else none

/-- Try the fenced-block regex "```(?:bash|sh|zsh|shell)?\n?(.*?)\n?```"
anchored at the current position, with RE2's leftmost-first preferences:
alternatives in written order, an optional group preferring presence. -/
def matchFenceAt (r : List Char) : Option (List Char) :=
  if ("```".toList).isPrefixOf r then
    match tryTag (r.drop 3) "bash".toList with
    | some m => some m
    | none =>
      match tryTag (r.drop 3) "sh".toList with
      | some m => some m
      | none =>
        match tryTag (r.drop 3) "zsh".toList with
        | some m => some m
        | none =>
          match tryTag (r.drop 3) "shell".toList with
          | some m => some m
          | none => fenceTail (r.drop 3)
  else none

/-- Leftmost match of the fenced-block regex over the whole text:
`FindStringSubmatch` returns the capture of the match with the earliest start. -/
def findFence : List Char → Option (List Char)
  | [] => none
  | c :: rest =>
    match matchFenceAt (c :: rest) with
    | some m => some m
    | none => findFence rest

/-- Model of `sanitizeCommand` (parser_engine.go lines 192-225), over `List Char`:
trim; fenced-block strategy; inline-code strategy; first plain line that is
non-blank and not explanation-like, with a leading prompt marker stripped;
finally the first non-empty line of the trimmed text. -/
def sanitizeCore (raw0 : List Char) : List Char :=
  match findFence (trimChars raw0) with
  | some m => getFirstNonEmptyLine (trimChars m)
  | none =>
    match findInline (trimChars raw0) with
    | some m => trimChars m
    | none =>
      match ((splitLines (trimChars raw0)).map trimChars).find?
          (fun l => !l.isEmpty && !looksLikeExplanation l) with
      | some line => trimChars (stripPrompt line)
      | none => getFirstNonEmptyLine (trimChars raw0)

/-- `sanitizeCommand` on Lean strings. -/
def sanitizeCommand (raw : String) : String :=
  ⟨sanitizeCore raw.data⟩

/-! Configuration resolution (`getAIConfig`, `getEnvOrDefault`).
The environment is an explicit lookup `String → Option String`;
`os.Getenv` returns the empty string for an absent variable. -/

structure AIConfig where
  Provider : String
  BaseURL : String
  APIKey : String
  Model : String
deriving DecidableEq

/-- Model of `os.Getenv`: an unset variable reads as the empty string. -/
def osGetenv (env : String → Option String) (key : String) : String :=
  (env key).getD ""

/-- Model of `getEnvOrDefault` (parser_engine.go lines 75-80). -/
def getEnvOrDefault (env : String → Option String) (key defaultValue : String) : String :=
  if osGetenv env key ≠ "" then osGetenv env key else defaultValue

/-- Model of `getAIConfig` (parser_engine.go lines 49-72); the Go `switch`
with no default leaves the zero-valued fields untouched for unknown providers. -/
def getAIConfig (env : String → Option String) : AIConfig :=
  if getEnvOrDefault env "AI_PROVIDER" "ollama" = "openai" then
    { Provider := getEnvOrDefault env "AI_PROVIDER" "ollama"
      BaseURL := getEnvOrDefault env "AI_BASE_URL" "https://api.openai.com/v1/chat/completions"
      APIKey := osGetenv env "AI_API_KEY"
      Model := getEnvOrDefault env "AI_MODEL" "gpt-3.5-turbo" }
  else if getEnvOrDefault env "AI_PROVIDER" "ollama" = "gemini" then
    { Provider := getEnvOrDefault env "AI_PROVIDER" "ollama"
      BaseURL := getEnvOrDefault env "AI_BASE_URL" "https://generativelanguage.googleapis.com/v1beta/models"
      APIKey := osGetenv env "AI_API_KEY"
      Model := getEnvOrDefault env "AI_MODEL" "gemini-pro" }
  else if getEnvOrDefault env "AI_PROVIDER" "ollama" = "ollama" then
    { Provider := getEnvOrDefault env "AI_PROVIDER" "ollama"
      BaseURL := getEnvOrDefault env "AI_BASE_URL" "http://localhost:11434/api/generate"
      APIKey := ""
      Model := getEnvOrDefault env "AI_MODEL" "llama2" }
  else
    { Provider := getEnvOrDefault env "AI_PROVIDER" "ollama",
      BaseURL := "", APIKey := "", Model := "" }

/-! Request building and response decoding (`callAIAPI`, parser_engine.go
lines 83-189), staged: the provider switch that builds the payload and
endpoint runs before any serialization or network activity; the HTTP-status
check runs on the transport result before any body parsing.  `json.Unmarshal`
is external code and is passed in as an abstract parser per provider. -/

inductive APIError
  | unsupportedProvider (provider : String)
  | httpStatus (code : Nat) (body : String)
  | malformed (cause : String)
deriving DecidableEq

inductive Payload
  | openai (model : String) (messages : List (String × String)) (maxTokens : Nat)
  | gemini (text : String)
  | ollama (model : String) (prompt : String) (stream : Bool)
deriving DecidableEq

structure RequestSpec where
  payload : Payload
  endpoint : String
  headers : List (String × String)
deriving DecidableEq

/-- The fixed instruction preamble sent to every provider. -/
def instruction : String :=
  "Eres un asistente que convierte lenguaje natural a comandos de Unix/Linux. Responde SOLO con el comando, sin explicaciones."

/-- The provider switch of `callAIAPI` (parser_engine.go lines 89-120): builds
the provider-shaped payload, endpoint and headers, or fails with the
unsupported-provider error before anything is sent. -/
def buildRequest (config : AIConfig) (prompt : String) : Except APIError RequestSpec :=
  if config.Provider = "openai" then
    .ok { payload := .openai config.Model
            [("system", instruction), ("user", prompt)] 100
          endpoint := config.BaseURL
          headers := ("Content-Type", "application/json") ::
            (if config.APIKey ≠ "" then
              [("Authorization", "Bearer " ++ config.APIKey)] else []) }
  else if config.Provider = "gemini" then
    .ok { payload := .gemini (instruction ++ " Usuario: " ++ prompt)
          endpoint := config.BaseURL ++ "/" ++ config.Model ++
            ":generateContent?key=" ++ config.APIKey
          headers := [("Content-Type", "application/json")] }
  else if config.Provider = "ollama" then
    .ok { payload := .ollama config.Model (instruction ++ " Usuario: " ++ prompt) false
          endpoint := config.BaseURL
          headers := [("Content-Type", "application/json")] }
  else
    .error (.unsupportedProvider config.Provider)

structure OpenAIMessage where
  content : String
deriving DecidableEq

structure OpenAIChoice where
  message : OpenAIMessage
deriving DecidableEq

structure OpenAIResponse where
  choices : List OpenAIChoice
deriving DecidableEq

structure GeminiPart where
  text : String
deriving DecidableEq

structure GeminiContent where
  parts : List GeminiPart
deriving DecidableEq

structure GeminiCandidate where
  content : GeminiContent
deriving DecidableEq

structure GeminiResponse where
  candidates : List GeminiCandidate
deriving DecidableEq

structure OllamaResponse where
  response : String
deriving DecidableEq

/-- Abstract `json.Unmarshal` per provider schema. -/
structure Parsers where
  openai : String → Except String OpenAIResponse
  gemini : String → Except String GeminiResponse
  ollama : String → Except String OllamaResponse

/-- The response-handling tail of `callAIAPI` (parser_engine.go lines 157-188):
status check first, then the per-provider schema decode; missing list elements
leave the result as the empty string, as does an unknown provider (unreachable
from `callAIAPI`, whose switch already rejected it). -/
def decodeAIResponse (P : Parsers) (provider : String) (statusCode : Nat)
    (body : String) : Except APIError String :=
  if statusCode ≥ 400 then .error (.httpStatus statusCode body)
  else if provider = "openai" then
    match P.openai body with
    | .error e => .error (.malformed e)
    | .ok r => .ok (match r.choices with
        | [] => ""
        | c :: _ => c.message.content)
  else if provider = "gemini" then
    match P.gemini body with
    | .error e => .error (.malformed e)
    | .ok r => .ok (match r.candidates with
        | [] => ""
        | c :: _ =>
          match c.content.parts with
          | [] => ""
          | p :: _ => p.text)
  else if provider = "ollama" then
    match P.ollama body with
    | .error e => .error (.malformed e)
    | .ok r => .ok r.response
  else .ok ""

inductive TransError
  | connectionFailed (cause : APIError)
  | noCommandExtracted
deriving DecidableEq

/-- Model of `TranslateToCommand` (parser_engine.go lines 262-275), over the
result of `callAIAPI`: a failed call is wrapped as a connection error; a
sanitization result that is empty yields the no-command error together with
the raw text; otherwise both the raw text and the command are returned. -/
def TranslateToCommand (apiResult : Except APIError String) :
    String × String × Option TransError :=
  match apiResult with
  | .error e => ("", "", some (.connectionFailed e))
  | .ok rawResponse =>
    if sanitizeCommand rawResponse = "" then (rawResponse, "", some .noCommandExtracted)
    else (rawResponse, sanitizeCommand rawResponse, none)

end ParserEngine

namespace ParserEngine

theorem trimChars_eq_rdropWhile (l : List Char) :
    trimChars l = List.rdropWhile isSpace (l.dropWhile isSpace) := rfl

theorem dropWhile_trimChars (l : List Char) :
    (trimChars l).dropWhile isSpace = trimChars l := by
  rw [trimChars_eq_rdropWhile]
  rcases h : List.rdropWhile isSpace (l.dropWhile isSpace) with _ | ⟨c, cs⟩
  · simp
  · have hpre : List.rdropWhile isSpace (l.dropWhile isSpace) <+: l.dropWhile isSpace :=
      List.rdropWhile_prefix _ _
    rw [h] at hpre
    obtain ⟨t, ht⟩ := hpre
    have h2 : List.dropWhile isSpace (c :: cs ++ t) = c :: cs ++ t := by
      rw [ht]; exact List.dropWhile_idempotent _ _
    have hc : isSpace c = false := by
      by_contra hcc
      rw [Bool.not_eq_false] at hcc
      simp only [List.cons_append, List.dropWhile_cons, hcc, if_true] at h2
      have hle : (List.dropWhile isSpace (cs ++ t)).length ≤ (cs ++ t).length :=
        (List.dropWhile_sublist _).length_le
      have hlen := congrArg List.length h2
      simp only [List.length_cons, List.length_append] at hlen hle
      omega
    simp [List.dropWhile_cons, hc]

theorem trimChars_idem (l : List Char) : trimChars (trimChars l) = trimChars l := by
  conv_lhs => rw [trimChars_eq_rdropWhile (trimChars l), dropWhile_trimChars]
  rw [trimChars_eq_rdropWhile]
  exact List.rdropWhile_idempotent _ _

theorem mem_of_mem_trimChars {a : Char} {l : List Char} (h : a ∈ trimChars l) : a ∈ l := by
  unfold trimChars at h
  rw [List.mem_reverse] at h
  have h1 : a ∈ (l.dropWhile isSpace).reverse := (List.dropWhile_sublist _).mem h
  rw [List.mem_reverse] at h1
  exact (List.dropWhile_sublist _).mem h1

theorem splitLines_ne_nil (l : List Char) : splitLines l ≠ [] := by
  cases l with
  | nil => simp [splitLines]
  | cons c rest =>
    unfold splitLines
    split
    · simp
    · split <;> simp

theorem not_newline_mem_splitLines {s : List Char} {l : List Char}
    (hs : s ∈ splitLines l) : '\n' ∉ s := by
  induction l generalizing s with
  | nil =>
    simp [splitLines] at hs
    subst hs; simp
  | cons c rest ih =>
    unfold splitLines at hs
    by_cases hc : c = '\n'
    · rw [if_pos hc] at hs
      rcases List.mem_cons.mp hs with h | h
      · subst h; simp
      · exact ih h
    · rw [if_neg hc] at hs
      rcases hrec : splitLines rest with _ | ⟨hd, tl⟩
      · exact absurd hrec (splitLines_ne_nil rest)
      · rw [hrec] at hs
        rcases List.mem_cons.mp hs with h | h
        · subst h
          intro hmem
          rcases List.mem_cons.mp hmem with h1 | h1
          · exact hc h1.symm
          · exact ih (by rw [hrec]; exact List.mem_cons_self _ _) h1
        · exact ih (by rw [hrec]; exact List.mem_cons_of_mem _ h)

theorem splitLines_eq_single {l : List Char} (h : '\n' ∉ l) : splitLines l = [l] := by
  induction l with
  | nil => rfl
  | cons c rest ih =>
    have hc : c ≠ '\n' := fun hcc => h (hcc ▸ List.mem_cons_self c rest)
    have hr : splitLines rest = [rest] := ih (fun hm => h (List.mem_cons_of_mem _ hm))
    unfold splitLines
    rw [if_neg hc, hr]

theorem getFirstNonEmptyLine_no_newline (l : List Char) :
    '\n' ∉ getFirstNonEmptyLine l := by
  unfold getFirstNonEmptyLine
  rcases h : ((splitLines l).map trimChars).find? (fun x => !x.isEmpty) with _ | x
  · rw [h]; simp
  · rw [h]
    simp only [Option.getD_some]
    have hmem := List.mem_of_find?_eq_some h
    rw [List.mem_map] at hmem
    obtain ⟨y, hy, rfl⟩ := hmem
    intro hmm
    exact not_newline_mem_splitLines hy (mem_of_mem_trimChars hmm)

theorem trimChars_getFirstNonEmptyLine (l : List Char) :
    trimChars (getFirstNonEmptyLine l) = getFirstNonEmptyLine l := by
  unfold getFirstNonEmptyLine
  rcases h : ((splitLines l).map trimChars).find? (fun x => !x.isEmpty) with _ | x
  · rw [h]; rfl
  · rw [h]
    simp only [Option.getD_some]
    have hmem := List.mem_of_find?_eq_some h
    rw [List.mem_map] at hmem
    obtain ⟨y, _, rfl⟩ := hmem
    exact trimChars_idem y

theorem getFirstNonEmptyLine_of_no_newline {l : List Char} (h : '\n' ∉ l) :
    getFirstNonEmptyLine l = trimChars l := by
  unfold getFirstNonEmptyLine
  rw [splitLines_eq_single h]
  by_cases he : (trimChars l).isEmpty
  · simp [List.find?, he, List.isEmpty_iff.mp he]
  · simp [List.find?, he]

end ParserEngine

namespace ParserEngine

theorem isPrefixOf_append (a r : List Char) : a.isPrefixOf (a ++ r) = true := by
  rw [List.isPrefixOf_iff_prefix]
  exact List.prefix_append a r

theorem backtick_list : "```".toList = [backtick, backtick, backtick] := by decide

theorem isPrefixOf_cons_false {t0 c : Char} {t' b' : List Char} (h : t0 ≠ c) :
    (t0 :: t').isPrefixOf (c :: b') = false := by
  simp [List.isPrefixOf, h]

theorem triple_isPrefixOf_false {c : Char} {r : List Char} (hb : c ≠ backtick) :
    ("```".toList).isPrefixOf (c :: r) = false := by
  rw [backtick_list]
  exact isPrefixOf_cons_false (fun h => hb h.symm)

theorem fenceClose_false_of_head {c : Char} {r : List Char}
    (hb : c ≠ backtick) (hn : c ≠ '\n') : fenceClose (c :: r) = false := by
  unfold fenceClose
  rw [triple_isPrefixOf_false hb]
  simp only [Bool.false_or]
  split
  · next heq =>
      rw [List.cons.injEq] at heq
      exact absurd heq.1 hn
  · rfl

theorem fenceClose_newline (X : List Char) :
    fenceClose ('\n' :: X) = ("```".toList).isPrefixOf X := by
  unfold fenceClose
  rw [triple_isPrefixOf_false (by decide)]
  simp

theorem lazyCapture_cons (c : Char) (rest : List Char) :
    lazyCapture (c :: rest) =
      if fenceClose (c :: rest) then some []
      else if c = '\n' then none else (lazyCapture rest).map (c :: ·) := rfl

theorem lazyCapture_newline {X : List Char}
    (h : ("```".toList).isPrefixOf X = false) : lazyCapture ('\n' :: X) = none := by
  rw [lazyCapture_cons, fenceClose_newline, h]
  simp

theorem lazyCapture_append {a r : List Char} (hn : '\n' ∉ a) (hb : backtick ∉ a) :
    lazyCapture (a ++ r) = (lazyCapture r).map (a ++ ·) := by
  induction a with
  | nil =>
    cases h : lazyCapture r <;> simp [h]
  | cons c a' ih =>
    have hc1 : c ≠ backtick := fun h => hb (h ▸ List.mem_cons_self c a')
    have hc2 : c ≠ '\n' := fun h => hn (h ▸ List.mem_cons_self c a')
    have hn' : '\n' ∉ a' := fun h => hn (List.mem_cons_of_mem _ h)
    have hb' : backtick ∉ a' := fun h => hb (List.mem_cons_of_mem _ h)
    rw [List.cons_append, lazyCapture_cons,
      fenceClose_false_of_head hc1 hc2, if_neg Bool.false_ne_true, if_neg hc2,
      ih hn' hb']
    cases h : lazyCapture r <;> simp [h]

theorem head_append_not_triple {body : List Char} (Y : List Char) (hb : backtick ∉ body) :
    ("```".toList).isPrefixOf (body ++ '\n' :: Y) = false := by
  cases body with
  | nil => exact triple_isPrefixOf_false (by decide)
  | cons c b' =>
    rw [List.cons_append]
    exact triple_isPrefixOf_false (fun h => hb (h ▸ List.mem_cons_self c b'))

theorem lazyCapture_close {body : List Char} (rest : List Char)
    (hn : '\n' ∉ body) (hb : backtick ∉ body) :
    lazyCapture (body ++ '\n' :: ("```".toList ++ rest)) = some body := by
  rw [lazyCapture_append hn hb, lazyCapture_cons, fenceClose_newline,
    isPrefixOf_append, if_pos rfl]
  simp

theorem fenceTail_cons_newline (rest : List Char) :
    fenceTail ('\n' :: rest) =
      match lazyCapture rest with
      | some m => some m
      | none => lazyCapture ('\n' :: rest) := rfl

theorem fenceTail_not_newline {c : Char} {rest : List Char} (h : c ≠ '\n') :
    fenceTail (c :: rest) = lazyCapture (c :: rest) := by
  unfold fenceTail
  split
  · next heq =>
      rw [List.cons.injEq] at heq
      exact absurd heq.1 h
  · rfl

theorem fenceTail_newline_close {body : List Char} (rest : List Char)
    (hn : '\n' ∉ body) (hb : backtick ∉ body) :
    fenceTail ('\n' :: (body ++ '\n' :: ("```".toList ++ rest))) = some body := by
  rw [fenceTail_cons_newline, lazyCapture_close rest hn hb]

theorem tryTag_append (t X : List Char) : tryTag (t ++ X) t = fenceTail X := by
  unfold tryTag
  rw [isPrefixOf_append, if_pos rfl, List.drop_left]

theorem tryTag_none {body t : List Char} (h : t.isPrefixOf body = false) :
    tryTag body t = none := by
  unfold tryTag
  rw [h]
  simp

end ParserEngine

namespace ParserEngine

theorem lazyCapture_nil : lazyCapture [] = none := by decide

theorem lazyCapture_no_newline {r : List Char} :
    ∀ {m : List Char}, lazyCapture r = some m → '\n' ∉ m := by
  induction r with
  | nil =>
    intro m h
    rw [lazyCapture_nil] at h
    cases h
  | cons c rest ih =>
    intro m h
    rw [lazyCapture_cons] at h
    by_cases h1 : fenceClose (c :: rest) = true
    · rw [if_pos h1] at h
      cases h
      simp
    · rw [if_neg h1] at h
      by_cases h2 : c = '\n'
      · rw [if_pos h2] at h; cases h
      · rw [if_neg h2] at h
        rcases hm : lazyCapture rest with _ | m'
        · rw [hm] at h; cases h
        · rw [hm] at h
          simp only [Option.map_some'] at h
          cases h
          intro hmem
          rcases List.mem_cons.mp hmem with h3 | h3
          · exact h2 h3.symm
          · exact ih hm h3

theorem fenceTail_no_newline {r m : List Char} (h : fenceTail r = some m) : '\n' ∉ m := by
  unfold fenceTail at h
  split at h
  · next rest =>
      rcases hlc : lazyCapture rest with _ | m'
      · rw [hlc] at h
        exact lazyCapture_no_newline h
      · rw [hlc] at h
        cases h
        exact lazyCapture_no_newline hlc
  · exact lazyCapture_no_newline h

theorem tryTag_no_newline {body t m : List Char} (h : tryTag body t = some m) : '\n' ∉ m := by
  unfold tryTag at h
  split at h
  · exact fenceTail_no_newline h
  · cases h

theorem matchFenceAt_no_newline {r m : List Char} (h : matchFenceAt r = some m) :
    '\n' ∉ m := by
  unfold matchFenceAt at h
  split at h
  · split at h
    · next heq => cases h; exact tryTag_no_newline heq
    · split at h
      · next heq => cases h; exact tryTag_no_newline heq
      · split at h
        · next heq => cases h; exact tryTag_no_newline heq
        · split at h
          · next heq => cases h; exact tryTag_no_newline heq
          · exact fenceTail_no_newline h
  · cases h

theorem findFence_cons (c : Char) (rest : List Char) :
    findFence (c :: rest) =
      match matchFenceAt (c :: rest) with
      | some m => some m
      | none => findFence rest := rfl

theorem findFence_no_newline {l : List Char} :
    ∀ {m : List Char}, findFence l = some m → '\n' ∉ m := by
  induction l with
  | nil => intro m h; cases h
  | cons c rest ih =>
    intro m h
    rw [findFence_cons] at h
    rcases hm : matchFenceAt (c :: rest) with _ | m'
    · rw [hm] at h
      exact ih h
    · rw [hm] at h
      cases h
      exact matchFenceAt_no_newline hm

theorem matchFenceAt_none_of_head {c : Char} {rest : List Char} (hb : c ≠ backtick) :
    matchFenceAt (c :: rest) = none := by
  unfold matchFenceAt
  rw [triple_isPrefixOf_false hb]
  rfl

theorem findFence_append {a r : List Char} (hb : backtick ∉ a) :
    findFence (a ++ r) = findFence r := by
  induction a with
  | nil => rfl
  | cons c a' ih =>
    have hc : c ≠ backtick := fun h => hb (h ▸ List.mem_cons_self c a')
    rw [List.cons_append, findFence_cons, matchFenceAt_none_of_head hc]
    exact ih (fun h => hb (List.mem_cons_of_mem _ h))

theorem findFence_no_backtick {l : List Char} (hb : backtick ∉ l) : findFence l = none := by
  have h := findFence_append (r := []) hb
  rw [List.append_nil] at h
  exact h

theorem findInline_cons (c : Char) (rest : List Char) :
    findInline (c :: rest) =
      if c = backtick then
        match rest.dropWhile (fun x => x ≠ backtick) with
        | [] => findInline rest
        | _ :: _ =>
          match rest.takeWhile (fun x => x ≠ backtick) with
          | [] => findInline rest
          | run => some run
      else findInline rest := rfl

theorem findInline_append {a r : List Char} (hb : backtick ∉ a) :
    findInline (a ++ r) = findInline r := by
  induction a with
  | nil => rfl
  | cons c a' ih =>
    have hc : c ≠ backtick := fun h => hb (h ▸ List.mem_cons_self c a')
    rw [List.cons_append, findInline_cons, if_neg hc]
    exact ih (fun h => hb (List.mem_cons_of_mem _ h))

theorem findInline_no_backtick {l : List Char} (hb : backtick ∉ l) : findInline l = none := by
  have h := findInline_append (r := []) hb
  rw [List.append_nil] at h
  exact h

theorem findFence_of_matchFenceAt {l m : List Char} (h : matchFenceAt l = some m) :
    findFence l = some m := by
  cases l with
  | nil =>
    rw [show matchFenceAt [] = none from by decide] at h
    cases h
  | cons c rest =>
    rw [findFence_cons, h]

end ParserEngine

namespace ParserEngine

theorem sanitizeCore_fence {raw0 m : List Char} (h : findFence (trimChars raw0) = some m) :
    sanitizeCore raw0 = getFirstNonEmptyLine (trimChars m) := by
  unfold sanitizeCore
  rw [h]

theorem sanitizeCore_inline {raw0 m : List Char} (hf : findFence (trimChars raw0) = none)
    (h : findInline (trimChars raw0) = some m) : sanitizeCore raw0 = trimChars m := by
  unfold sanitizeCore
  rw [hf, h]

theorem sanitizeCore_line {raw0 line : List Char} (hf : findFence (trimChars raw0) = none)
    (hi : findInline (trimChars raw0) = none)
    (h : ((splitLines (trimChars raw0)).map trimChars).find?
      (fun l => !l.isEmpty && !looksLikeExplanation l) = some line) :
    sanitizeCore raw0 = trimChars (stripPrompt line) := by
  unfold sanitizeCore
  rw [hf, hi, h]

theorem sanitizeCore_fallback {raw0 : List Char} (hf : findFence (trimChars raw0) = none)
    (hi : findInline (trimChars raw0) = none)
    (h : ((splitLines (trimChars raw0)).map trimChars).find?
      (fun l => !l.isEmpty && !looksLikeExplanation l) = none) :
    sanitizeCore raw0 = getFirstNonEmptyLine (trimChars raw0) := by
  unfold sanitizeCore
  rw [hf, hi, h]

theorem mem_of_mem_stripPrompt {a : Char} {l : List Char} (h : a ∈ stripPrompt l) : a ∈ l := by
  unfold stripPrompt at h
  split at h
  · exact List.mem_cons_of_mem _ h
  · split_ifs at h
    · exact (List.dropWhile_sublist _).mem ((List.drop_sublist _ _).mem h)
    · exact (List.dropWhile_sublist _).mem ((List.drop_sublist _ _).mem h)
    · exact h

theorem sanitizeCore_trimmed (raw0 : List Char) :
    trimChars (sanitizeCore raw0) = sanitizeCore raw0 := by
  rcases h1 : findFence (trimChars raw0) with _ | m
  · rcases h2 : findInline (trimChars raw0) with _ | m
    · rcases h3 : ((splitLines (trimChars raw0)).map trimChars).find?
          (fun l => !l.isEmpty && !looksLikeExplanation l) with _ | line
      · rw [sanitizeCore_fallback h1 h2 h3]
        exact trimChars_getFirstNonEmptyLine _
      · rw [sanitizeCore_line h1 h2 h3]
        exact trimChars_idem _
    · rw [sanitizeCore_inline h1 h2]
      exact trimChars_idem _
  · rw [sanitizeCore_fence h1]
    exact trimChars_getFirstNonEmptyLine _

/-- Claim C3, amended: the sanitized command contains no embedded newline
whenever the fenced strategy matches or no inline span matches; the inline
strategy alone can return a capture that spans lines, because the regex
character class it uses matches newlines. -/
theorem sanitizeCore_no_newline_of (raw0 : List Char)
    (h : findFence (trimChars raw0) ≠ none ∨ findInline (trimChars raw0) = none) :
    '\n' ∉ sanitizeCore raw0 := by
  rcases h1 : findFence (trimChars raw0) with _ | m
  · have hin : findInline (trimChars raw0) = none := by
      rcases h with h | h
      · exact absurd h1 h
      · exact h
    rcases h3 : ((splitLines (trimChars raw0)).map trimChars).find?
        (fun l => !l.isEmpty && !looksLikeExplanation l) with _ | line
    · rw [sanitizeCore_fallback h1 hin h3]
      exact getFirstNonEmptyLine_no_newline _
    · rw [sanitizeCore_line h1 hin h3]
      intro hmm
      have h5 := mem_of_mem_stripPrompt (mem_of_mem_trimChars hmm)
      have hline := List.mem_of_find?_eq_some h3
      rw [List.mem_map] at hline
      obtain ⟨y, hy, rfl⟩ := hline
      exact not_newline_mem_splitLines hy (mem_of_mem_trimChars h5)
  · rw [sanitizeCore_fence h1]
    exact getFirstNonEmptyLine_no_newline _

theorem dropWhile_cons_self {p : Char → Bool} {c : Char} {cs : List Char}
    (h : List.dropWhile p (c :: cs) = c :: cs) : p c = false := by
  by_cases hc : p c = true
  · rw [List.dropWhile_cons, if_pos hc] at h
    have hle : (List.dropWhile p cs).length ≤ cs.length :=
      (List.dropWhile_sublist _).length_le
    have hlen := congrArg List.length h
    simp only [List.length_cons] at hlen
    omega
  · exact Bool.not_eq_true _ |>.mp hc

theorem trimChars_cons_ne_nil {c : Char} {l' : List Char} (hc : isSpace c = false) :
    trimChars (c :: l') ≠ [] := by
  rw [trimChars_eq_rdropWhile]
  rw [List.dropWhile_cons, hc]
  simp only [Bool.false_eq_true, if_false]
  intro h
  rw [List.rdropWhile_eq_nil_iff] at h
  have := h c (List.mem_cons_self _ _)
  rw [hc] at this
  cases this

theorem splitLines_cons_head {c : Char} (cs : List Char) (hc : c ≠ '\n') :
    ∃ l' ls, splitLines (c :: cs) = (c :: l') :: ls := by
  unfold splitLines
  rw [if_neg hc]
  rcases h : splitLines cs with _ | ⟨hd, tl⟩
  · exact absurd h (splitLines_ne_nil cs)
  · exact ⟨hd, tl, rfl⟩

theorem getFirstNonEmptyLine_of_head {c : Char} {cs : List Char} (hc : isSpace c = false) :
    getFirstNonEmptyLine (c :: cs) ≠ [] := by
  have hcn : c ≠ '\n' := by
    intro h
    subst h
    exact absurd hc (by decide)
  obtain ⟨l', ls, hsp⟩ := splitLines_cons_head cs hcn
  unfold getFirstNonEmptyLine
  rw [hsp]
  have hne : (trimChars (c :: l')).isEmpty = false := by
    rw [Bool.eq_false_iff]
    intro h
    exact trimChars_cons_ne_nil hc (List.isEmpty_iff.mp h)
  simp only [List.map_cons, List.find?_cons, hne]
  simp only [Bool.not_false, Option.getD_some]
  intro h
  exact trimChars_cons_ne_nil hc h

end ParserEngine

namespace ParserEngine

theorem tryTag_cons_ne {t0 c : Char} {t' X : List Char} (h : t0 ≠ c) :
    tryTag (c :: X) (t0 :: t') = none :=
  tryTag_none (isPrefixOf_cons_false h)

theorem tryTag_nl_bash (Y : List Char) : tryTag ('\n' :: Y) "bash".toList = none := by
  rw [show ("bash".toList : List Char) = 'b' :: 'a' :: 's' :: 'h' :: [] from by decide]
  exact tryTag_cons_ne (by decide)

theorem tryTag_nl_sh (Y : List Char) : tryTag ('\n' :: Y) "sh".toList = none := by
  rw [show ("sh".toList : List Char) = 's' :: 'h' :: [] from by decide]
  exact tryTag_cons_ne (by decide)

theorem tryTag_nl_zsh (Y : List Char) : tryTag ('\n' :: Y) "zsh".toList = none := by
  rw [show ("zsh".toList : List Char) = 'z' :: 's' :: 'h' :: [] from by decide]
  exact tryTag_cons_ne (by decide)

theorem tryTag_nl_shell (Y : List Char) : tryTag ('\n' :: Y) "shell".toList = none := by
  rw [show ("shell".toList : List Char) = 's' :: 'h' :: 'e' :: 'l' :: 'l' :: [] from by decide]
  exact tryTag_cons_ne (by decide)

theorem tryTag_sh_bash (Y : List Char) : tryTag ("sh".toList ++ Y) "bash".toList = none := by
  rw [show ("sh".toList : List Char) = 's' :: 'h' :: [] from by decide,
    show ("bash".toList : List Char) = 'b' :: 'a' :: 's' :: 'h' :: [] from by decide,
    List.cons_append]
  exact tryTag_cons_ne (by decide)

theorem tryTag_zsh_bash (Y : List Char) : tryTag ("zsh".toList ++ Y) "bash".toList = none := by
  rw [show ("zsh".toList : List Char) = 'z' :: 's' :: 'h' :: [] from by decide,
    show ("bash".toList : List Char) = 'b' :: 'a' :: 's' :: 'h' :: [] from by decide,
    List.cons_append]
  exact tryTag_cons_ne (by decide)

theorem tryTag_zsh_sh (Y : List Char) : tryTag ("zsh".toList ++ Y) "sh".toList = none := by
  rw [show ("zsh".toList : List Char) = 'z' :: 's' :: 'h' :: [] from by decide,
    show ("sh".toList : List Char) = 's' :: 'h' :: [] from by decide,
    List.cons_append]
  exact tryTag_cons_ne (by decide)

theorem tryTag_shell_bash (Y : List Char) :
    tryTag ("shell".toList ++ Y) "bash".toList = none := by
  rw [show ("shell".toList : List Char) = 's' :: 'h' :: 'e' :: 'l' :: 'l' :: [] from by decide,
    show ("bash".toList : List Char) = 'b' :: 'a' :: 's' :: 'h' :: [] from by decide,
    List.cons_append]
  exact tryTag_cons_ne (by decide)

theorem tryTag_shell_zsh (Y : List Char) :
    tryTag ("shell".toList ++ Y) "zsh".toList = none := by
  rw [show ("shell".toList : List Char) = 's' :: 'h' :: 'e' :: 'l' :: 'l' :: [] from by decide,
    show ("zsh".toList : List Char) = 'z' :: 's' :: 'h' :: [] from by decide,
    List.cons_append]
  exact tryTag_cons_ne (by decide)

theorem tryTag_shell_sh (Y : List Char) :
    tryTag ("shell".toList ++ Y) "sh".toList = fenceTail ('e' :: 'l' :: 'l' :: Y) := by
  rw [show ("shell".toList : List Char) = "sh".toList ++ ('e' :: 'l' :: 'l' :: []) from by decide,
    List.append_assoc, tryTag_append,
    show (('e' :: 'l' :: 'l' :: [] : List Char) ++ Y) = 'e' :: 'l' :: 'l' :: Y from rfl]

theorem fenceTail_ell_none {body : List Char} (rest : List Char) (hb : backtick ∉ body) :
    fenceTail ('e' :: 'l' :: 'l' :: '\n' :: (body ++ '\n' :: ("```".toList ++ rest))) = none := by
  rw [fenceTail_not_newline (by decide),
    show ('e' :: 'l' :: 'l' :: '\n' :: (body ++ '\n' :: ("```".toList ++ rest)) : List Char) =
      ('e' :: 'l' :: 'l' :: []) ++ ('\n' :: (body ++ '\n' :: ("```".toList ++ rest))) from rfl,
    lazyCapture_append (by decide) (by decide),
    lazyCapture_newline (head_append_not_triple _ hb)]
  rfl

theorem matchFenceAt_fence {tag body : List Char} (rest : List Char)
    (htag : tag = [] ∨ tag = "bash".toList ∨ tag = "sh".toList ∨ tag = "zsh".toList ∨
      tag = "shell".toList)
    (hn : '\n' ∉ body) (hb : backtick ∉ body) :
    matchFenceAt ("```".toList ++ (tag ++ '\n' :: (body ++ '\n' :: ("```".toList ++ rest)))) =
      some body := by
  have hdrop : ∀ X : List Char, (("```".toList : List Char) ++ X).drop 3 = X := by
    intro X
    rw [show (3 : Nat) = ("```".toList : List Char).length from rfl]
    exact List.drop_left _ _
  unfold matchFenceAt
  rw [isPrefixOf_append, if_pos rfl]
  simp only [hdrop]
  rcases htag with h | h | h | h | h <;> subst h
  · simp only [List.nil_append]
    rw [tryTag_nl_bash, tryTag_nl_sh, tryTag_nl_zsh, tryTag_nl_shell,
      fenceTail_newline_close rest hn hb]
  · rw [tryTag_append, fenceTail_newline_close rest hn hb]
  · rw [tryTag_sh_bash, tryTag_append, fenceTail_newline_close rest hn hb]
  · rw [tryTag_zsh_bash, tryTag_zsh_sh, tryTag_append, fenceTail_newline_close rest hn hb]
  · rw [tryTag_shell_bash, tryTag_shell_sh, fenceTail_ell_none rest hb, tryTag_shell_zsh,
      tryTag_append, fenceTail_newline_close rest hn hb]

theorem sanitizeCore_nonempty (raw0 : List Char)
    (h0 : trimChars raw0 ≠ [])
    (h1 : ∀ m, findFence (trimChars raw0) = some m → trimChars m ≠ [])
    (h2 : ∀ m, findInline (trimChars raw0) = some m → trimChars m ≠ [])
    (h3 : ∀ line, ((splitLines (trimChars raw0)).map trimChars).find?
        (fun l => !l.isEmpty && !looksLikeExplanation l) = some line →
        trimChars (stripPrompt line) ≠ []) :
    sanitizeCore raw0 ≠ [] := by
  rcases hf : findFence (trimChars raw0) with _ | m
  · rcases hi : findInline (trimChars raw0) with _ | m
    · rcases hl : ((splitLines (trimChars raw0)).map trimChars).find?
          (fun l => !l.isEmpty && !looksLikeExplanation l) with _ | line
      · rw [sanitizeCore_fallback hf hi hl]
        rcases hc : trimChars raw0 with _ | ⟨c, cs⟩
        · exact absurd hc h0
        · have hds : List.dropWhile isSpace (c :: cs) = c :: cs := by
            rw [← hc]
            exact dropWhile_trimChars raw0
          exact getFirstNonEmptyLine_of_head (dropWhile_cons_self hds)
      · rw [sanitizeCore_line hf hi hl]
        exact h3 line hl
    · rw [sanitizeCore_inline hf hi]
      exact h2 m hi
  · rw [sanitizeCore_fence hf]
    have hnl2 : '\n' ∉ trimChars m :=
      fun hx => findFence_no_newline hf (mem_of_mem_trimChars hx)
    rw [getFirstNonEmptyLine_of_no_newline hnl2, trimChars_idem]
    exact h1 m hf

/-- Claim C5, amended: sanitizing a single-line command with no backticks,
whose trimmed form neither starts with an explanation phrase nor with a
prompt marker (a leading dollar sign, "neri>" or "Emiliano>"), returns the
trimmed input unchanged.  The prompt-marker condition is forced by the
counterexample: the plain-line strategy strips those markers. -/
theorem sanitizeCore_clean_idem (c : List Char)
    (hn : '\n' ∉ c) (hb : backtick ∉ c)
    (hexp : looksLikeExplanation (trimChars c) = false)
    (hstrip : stripPrompt (trimChars c) = trimChars c) :
    sanitizeCore c = trimChars c := by
  have hb' : backtick ∉ trimChars c := fun h => hb (mem_of_mem_trimChars h)
  have hn' : '\n' ∉ trimChars c := fun h => hn (mem_of_mem_trimChars h)
  have hf : findFence (trimChars c) = none := findFence_no_backtick hb'
  have hi : findInline (trimChars c) = none := findInline_no_backtick hb'
  have hsp : splitLines (trimChars c) = [trimChars c] := splitLines_eq_single hn'
  by_cases he : (trimChars c).isEmpty = true
  · have hl : ((splitLines (trimChars c)).map trimChars).find?
        (fun l => !l.isEmpty && !looksLikeExplanation l) = none := by
      rw [hsp]
      simp [List.find?, trimChars_idem, he]
    rw [sanitizeCore_fallback hf hi hl, getFirstNonEmptyLine_of_no_newline hn', trimChars_idem]
  · have he' : (trimChars c).isEmpty = false := Bool.not_eq_true _ |>.mp he
    have hl : ((splitLines (trimChars c)).map trimChars).find?
        (fun l => !l.isEmpty && !looksLikeExplanation l) = some (trimChars c) := by
      rw [hsp]
      simp only [List.map_cons, List.map_nil, List.find?_cons, trimChars_idem, he', hexp,
        Bool.not_false, Bool.and_self]
    rw [sanitizeCore_line hf hi hl, hstrip, trimChars_idem]

/-- Claim C6, amended: when the fenced pattern matches with an interior that
is blank, sanitization returns the empty string -- the first-non-empty-line
fallback is applied to the blank interior, not to the whole trimmed text. -/
theorem sanitizeCore_fence_blank {raw0 m : List Char}
    (h : findFence (trimChars raw0) = some m) (hm : trimChars m = []) :
    sanitizeCore raw0 = [] := by
  rw [sanitizeCore_fence h, hm]
  rfl

/-- Claim C4: for a text containing a well-formed fenced block (optionally
tagged bash/sh/zsh/shell, single-line interior, no stray backticks around it)
followed later by a single-backtick inline span, sanitization returns the
trimmed fence interior: content from the fenced block, never from the
inline span. -/
theorem sanitizeCore_fence_wins (pre tag body mid span post : List Char)
    (htag : tag = [] ∨ tag = "bash".toList ∨ tag = "sh".toList ∨ tag = "zsh".toList ∨
      tag = "shell".toList)
    (hpre : backtick ∉ pre) (hbodyB : backtick ∉ body) (hbodyN : '\n' ∉ body)
    (_hmid : backtick ∉ mid) (_hspan : backtick ∉ span) (_hspanNe : span ≠ [])
    (_hpost : backtick ∉ post)
    (ht : trimChars (pre ++ ("```".toList ++ (tag ++ '\n' :: (body ++ '\n' ::
        ("```".toList ++ (mid ++ backtick :: (span ++ backtick :: post))))))) =
      pre ++ ("```".toList ++ (tag ++ '\n' :: (body ++ '\n' ::
        ("```".toList ++ (mid ++ backtick :: (span ++ backtick :: post))))))) :
    sanitizeCore (pre ++ ("```".toList ++ (tag ++ '\n' :: (body ++ '\n' ::
        ("```".toList ++ (mid ++ backtick :: (span ++ backtick :: post))))))) =
      trimChars body := by
  have hm : matchFenceAt ("```".toList ++ (tag ++ '\n' :: (body ++ '\n' ::
      ("```".toList ++ (mid ++ backtick :: (span ++ backtick :: post)))))) = some body :=
    matchFenceAt_fence (mid ++ backtick :: (span ++ backtick :: post)) htag hbodyN hbodyB
  have hff : findFence (pre ++ ("```".toList ++ (tag ++ '\n' :: (body ++ '\n' ::
      ("```".toList ++ (mid ++ backtick :: (span ++ backtick :: post))))))) = some body := by
    rw [findFence_append hpre]
    exact findFence_of_matchFenceAt hm
  have hff' : findFence (trimChars (pre ++ ("```".toList ++ (tag ++ '\n' :: (body ++ '\n' ::
      ("```".toList ++ (mid ++ backtick :: (span ++ backtick :: post)))))))) = some body := by
    rw [ht]
    exact hff
  rw [sanitizeCore_fence hff']
  have hnb : '\n' ∉ trimChars body := fun h => hbodyN (mem_of_mem_trimChars h)
  rw [getFirstNonEmptyLine_of_no_newline hnb, trimChars_idem]

end ParserEngine

namespace ParserEngine

theorem buildRequest_unsupported {config : AIConfig} (prompt : String)
    (h2 : config.Provider ≠ "openai") (h3 : config.Provider ≠ "gemini")
    (h4 : config.Provider ≠ "ollama") :
    buildRequest config prompt = .error (.unsupportedProvider config.Provider) := by
  unfold buildRequest
  rw [if_neg h2, if_neg h3, if_neg h4]

theorem getEnvOrDefault_ne_empty {env : String → Option String} {key dflt : String}
    (hd : dflt ≠ "") : getEnvOrDefault env key dflt ≠ "" := by
  unfold getEnvOrDefault
  by_cases h : osGetenv env key ≠ ""
  · rw [if_pos h]; exact h
  · rw [if_neg h]; exact hd

/-- Claim C1: the spec asserts that a fenced block whose interior spans several
lines yields the first non-blank interior line, and concretely that
sanitizing three-backticks-bash, "ls -la", "# list files", closing fence
gives "ls -la".  The code does not: the fenced regex's "(.*?)" cannot cross a
newline in RE2, so the fenced strategy fails and the inline strategy captures
across the fence markers, returning the tag and both interior lines. -/
theorem sanitizeCommand_fenced_multiline_eval :
    sanitizeCommand "```bash\nls -la\n# list files\n```" = "bash\nls -la\n# list files" := by
  decide

/-- Claim C2 counterexample: a text whose only line is six backticks is not
whitespace-only, yet sanitization returns the empty string and the
orchestrator reports the no-command error. -/
theorem sanitizeCommand_fence_empty_counterexample :
    (trimChars "``````".toList ≠ []) ∧ sanitizeCommand "``````" = "" ∧
      TranslateToCommand (.ok "``````") = ("``````", "", some .noCommandExtracted) := by
  decide

/-- Claim C2, amended: sanitization of a text with a non-blank line returns a
non-empty string provided no strategy matches with a blank result: no fenced
match with blank interior, no inline span with whitespace-only interior, and
no selected plain line that is blank once its prompt marker is stripped; the
orchestrator then succeeds. -/
theorem sanitizeCommand_nonempty_amended (raw0 : List Char)
    (h0 : trimChars raw0 ≠ [])
    (h1 : ∀ m, findFence (trimChars raw0) = some m → trimChars m ≠ [])
    (h2 : ∀ m, findInline (trimChars raw0) = some m → trimChars m ≠ [])
    (h3 : ∀ line, ((splitLines (trimChars raw0)).map trimChars).find?
        (fun l => !l.isEmpty && !looksLikeExplanation l) = some line →
        trimChars (stripPrompt line) ≠ []) :
    sanitizeCore raw0 ≠ [] ∧
      TranslateToCommand (.ok ⟨raw0⟩) = (⟨raw0⟩, sanitizeCommand ⟨raw0⟩, none) := by
  have hne := sanitizeCore_nonempty raw0 h0 h1 h2 h3
  refine ⟨hne, ?_⟩
  have hne' : sanitizeCommand ⟨raw0⟩ ≠ "" := fun hh => hne (congrArg String.data hh)
  show (if sanitizeCommand ⟨raw0⟩ = "" then ((⟨raw0⟩ : String), ("" : String),
      some TransError.noCommandExtracted)
    else ((⟨raw0⟩ : String), sanitizeCommand ⟨raw0⟩, none)) =
    (⟨raw0⟩, sanitizeCommand ⟨raw0⟩, none)
  rw [if_neg hne']

theorem sanitizeCommand_nonempty_amended_witness :
    (trimChars "ls -la".toList ≠ []) ∧ sanitizeCore "ls -la".toList ≠ [] ∧
      TranslateToCommand (.ok "ls -la") = ("ls -la", sanitizeCommand "ls -la", none) := by
  have h := sanitizeCommand_nonempty_amended "ls -la".toList (by decide)
    (fun m hm => by
      rw [show findFence (trimChars "ls -la".toList) = none from by decide] at hm
      cases hm)
    (fun m hm => by
      rw [show findInline (trimChars "ls -la".toList) = none from by decide] at hm
      cases hm)
    (fun line hl => by
      rw [show ((splitLines (trimChars "ls -la".toList)).map trimChars).find?
          (fun l => !l.isEmpty && !looksLikeExplanation l) = some ("ls -la".toList)
        from by decide] at hl
      cases hl
      decide)
  exact ⟨by decide, h.1, h.2⟩

/-- Claim C3 counterexample: an inline span whose interior crosses a newline
is returned verbatim, so the sanitized command contains an embedded newline. -/
theorem sanitizeCommand_newline_counterexample :
    '\n' ∈ (sanitizeCommand "run `echo a\necho b` now").data ∧
      sanitizeCommand "run `echo a\necho b` now" = "echo a\necho b" := by
  decide

theorem sanitizeCore_no_newline_witness :
    findInline (trimChars "pwd".toList) = none ∧ '\n' ∉ sanitizeCore "pwd".toList :=
  ⟨by decide, sanitizeCore_no_newline_of _ (Or.inr (by decide))⟩

theorem sanitizeCore_fence_wins_witness :
    (backtick ∉ "Say: ".toList) ∧ (backtick ∉ "ls -la".toList) ∧
      ('\n' ∉ "ls -la".toList) ∧ ("pwd".toList ≠ []) ∧
      sanitizeCore ("Say: ".toList ++ ("```".toList ++ ("bash".toList ++ '\n' ::
        ("ls -la".toList ++ '\n' :: ("```".toList ++ (" or ".toList ++ backtick ::
          ("pwd".toList ++ backtick :: ".".toList))))))) = trimChars "ls -la".toList := by
  refine ⟨by decide, by decide, by decide, by decide, ?_⟩
  exact sanitizeCore_fence_wins "Say: ".toList "bash".toList "ls -la".toList " or ".toList
    "pwd".toList ".".toList (Or.inr (Or.inl rfl)) (by decide) (by decide) (by decide)
    (by decide) (by decide) (by decide) (by decide) (by decide)

/-- Claim C5 counterexample: "$foo" is a bare single-line command with no
backticks and no explanation phrase, yet sanitization strips the leading
dollar sign, so the result differs from the trimmed input. -/
theorem sanitizeCommand_prompt_strip_counterexample :
    ('\n' ∉ "$foo".toList) ∧ (backtick ∉ "$foo".toList) ∧
      looksLikeExplanation (trimChars "$foo".toList) = false ∧
      trimChars "$foo".toList = "$foo".toList ∧
      sanitizeCommand "$foo" = "foo" ∧ sanitizeCommand "$foo" ≠ "$foo" := by
  decide

theorem sanitizeCore_clean_idem_witness :
    ('\n' ∉ "df -h".toList) ∧ (backtick ∉ "df -h".toList) ∧
      looksLikeExplanation (trimChars "df -h".toList) = false ∧
      stripPrompt (trimChars "df -h".toList) = trimChars "df -h".toList ∧
      sanitizeCore "df -h".toList = trimChars "df -h".toList :=
  ⟨by decide, by decide, by decide, by decide,
    sanitizeCore_clean_idem _ (by decide) (by decide) (by decide) (by decide)⟩

/-- Claim C6 counterexample: on "echo hi" followed by an empty fence, the
fenced pattern matches with a blank interior and sanitization returns the
empty string, not the first non-empty line of the whole trimmed text. -/
theorem sanitizeCommand_blank_fence_counterexample :
    findFence (trimChars "echo hi\n```\n```".toList) = some [] ∧
      sanitizeCommand "echo hi\n```\n```" = "" ∧
      getFirstNonEmptyLine (trimChars "echo hi\n```\n```".toList) = "echo hi".toList ∧
      sanitizeCommand "echo hi\n```\n```" ≠ "echo hi" := by
  decide

theorem sanitizeCore_fence_blank_witness :
    findFence (trimChars "echo ok\n``````".toList) = some [] ∧
      sanitizeCore "echo ok\n``````".toList = [] :=
  ⟨by decide, @sanitizeCore_fence_blank ("echo ok\n``````".toList) [] (by decide) (by decide)⟩

/-- Claim C7: any HTTP status of at least 400 makes the decode step fail with
the HTTP-status error carrying the code and the raw body, for every provider
kind and every body, whatever the schema parsers would say. -/
theorem decodeAIResponse_http_status (P : Parsers) (provider : String) (statusCode : Nat)
    (body : String) (h : statusCode ≥ 400) :
    decodeAIResponse P provider statusCode body =
      Except.error (.httpStatus statusCode body) := by
  unfold decodeAIResponse
  rw [if_pos h]

theorem decodeAIResponse_http_status_witness :
    ((500 : Nat) ≥ 400) ∧
      decodeAIResponse
        ⟨fun _ => .ok ⟨[⟨⟨"ls -la"⟩⟩]⟩, fun _ => .ok ⟨[]⟩, fun _ => .ok ⟨"ok"⟩⟩
        "openai" 500 "{}" = Except.error (.httpStatus 500 "{}") :=
  ⟨by decide, decodeAIResponse_http_status _ "openai" 500 "{}" (by decide)⟩

/-- Claim C8: configuration resolution preserves an unknown provider selector
unchanged, and request building then fails with the unsupported-provider
error carrying that identity, before anything is serialized or sent. -/
theorem getAIConfig_unsupported_provider (env : String → Option String) (prompt : String)
    (h1 : osGetenv env "AI_PROVIDER" ≠ "")
    (h2 : osGetenv env "AI_PROVIDER" ≠ "openai")
    (h3 : osGetenv env "AI_PROVIDER" ≠ "gemini")
    (h4 : osGetenv env "AI_PROVIDER" ≠ "ollama") :
    (getAIConfig env).Provider = osGetenv env "AI_PROVIDER" ∧
      buildRequest (getAIConfig env) prompt =
        Except.error (.unsupportedProvider (osGetenv env "AI_PROVIDER")) := by
  have hp : getEnvOrDefault env "AI_PROVIDER" "ollama" = osGetenv env "AI_PROVIDER" := by
    unfold getEnvOrDefault
    rw [if_pos h1]
  have hcfg : getAIConfig env =
      { Provider := osGetenv env "AI_PROVIDER", BaseURL := "", APIKey := "", Model := "" } := by
    unfold getAIConfig
    rw [hp, if_neg h2, if_neg h3, if_neg h4]
  refine ⟨by rw [hcfg], ?_⟩
  rw [hcfg]
  exact buildRequest_unsupported prompt h2 h3 h4

theorem getAIConfig_unsupported_provider_witness :
    (osGetenv (fun k => if k = "AI_PROVIDER" then some "anthropic" else none)
        "AI_PROVIDER" ≠ "") ∧
      (getAIConfig (fun k => if k = "AI_PROVIDER" then some "anthropic" else none)).Provider =
        "anthropic" ∧
      buildRequest (getAIConfig (fun k => if k = "AI_PROVIDER" then some "anthropic" else none))
        "list files" = Except.error (.unsupportedProvider "anthropic") := by
  have h := getAIConfig_unsupported_provider
    (fun k => if k = "AI_PROVIDER" then some "anthropic" else none) "list files"
    (by decide) (by decide) (by decide) (by decide)
  refine ⟨by decide, ?_, ?_⟩
  · rw [h.1]
    decide
  · have h2 := h.2
    rw [show osGetenv (fun k => if k = "AI_PROVIDER" then some "anthropic" else none)
        "AI_PROVIDER" = "anthropic" from by decide] at h2
    exact h2

/-- Claim C9: the sanitized command never carries leading or trailing
whitespace: every extraction strategy returns a trimmed string. -/
theorem sanitizeCommand_trimmed (raw : String) :
    trimChars (sanitizeCommand raw).data = (sanitizeCommand raw).data :=
  sanitizeCore_trimmed raw.data

/-- Claim C10: an environment value bound to the empty string behaves exactly
like an absent one -- the default is used, and with an empty provider
selector the resolved configuration has the ollama provider and non-empty
endpoint and model. -/
theorem getAIConfig_empty_override :
    (∀ (env : String → Option String) (key dflt : String), env key = some "" →
      getEnvOrDefault env key dflt = dflt ∧
        getEnvOrDefault env key dflt =
          getEnvOrDefault (fun k => if k = key then none else env k) key dflt) ∧
    (∀ env : String → Option String, env "AI_PROVIDER" = some "" →
      (getAIConfig env).Provider = "ollama" ∧ (getAIConfig env).BaseURL ≠ "" ∧
        (getAIConfig env).Model ≠ "") := by
  constructor
  · intro env key dflt h
    have hv : osGetenv env key = "" := by simp [osGetenv, h]
    have hv2 : osGetenv (fun k => if k = key then none else env k) key = "" := by
      simp [osGetenv]
    constructor
    · unfold getEnvOrDefault
      rw [hv]
      simp
    · unfold getEnvOrDefault
      rw [hv, hv2]
  · intro env h
    have hv : osGetenv env "AI_PROVIDER" = "" := by simp [osGetenv, h]
    have hp : getEnvOrDefault env "AI_PROVIDER" "ollama" = "ollama" := by
      unfold getEnvOrDefault
      rw [hv]
      simp
    unfold getAIConfig
    rw [hp, if_neg (by decide), if_neg (by decide), if_pos rfl]
    exact ⟨rfl, getEnvOrDefault_ne_empty (by decide), getEnvOrDefault_ne_empty (by decide)⟩

theorem getAIConfig_empty_override_witness :
    ((fun _ : String => some "") "AI_PROVIDER" = some "") ∧
      getEnvOrDefault (fun _ : String => some "") "AI_PROVIDER" "ollama" = "ollama" ∧
      (getAIConfig (fun _ : String => some "")).Provider = "ollama" ∧
      (getAIConfig (fun _ : String => some "")).BaseURL ≠ "" :=
  ⟨rfl, (getAIConfig_empty_override.1 _ "AI_PROVIDER" "ollama" rfl).1,
    (getAIConfig_empty_override.2 _ rfl).1, (getAIConfig_empty_override.2 _ rfl).2.1⟩

end ParserEngine
